import Mathlib

/-!
Verification development for the expense-management approval engine.

The data model is embedded from `src/expense_management/app/models.py`
(Django models). Foreign keys are represented by numeric ids; nullable
columns by `Option`; Django `on_delete` behaviour is embedded in explicit
deletion functions. Monetary `Decimal` columns are represented by `Nat`
amounts (e.g. cents); timestamps by `Nat` ticks.

The approval-flow resolution/evaluation engine (Flow Resolver, Rule
Evaluator, Approval State Machine) has no implementation in the source
tree — only the schema exists — so those operations are modelled from the
specification, as marked on each definition.
-/

namespace ExpenseMgmt

/-- Role choices of the custom `User` model (`ROLE_CHOICES`). -/
inductive Role where
  | ADMIN
  | MANAGER
  | EMPLOYEE
deriving DecidableEq, Repr

/-- `Company` model: name, country and currency columns (auto `id`). -/
structure Company where
  id : Nat
  name : String
  country : String
  currency_code : String
  currency_symbol : String
deriving DecidableEq, Repr

/-- `Department` model: belongs to one company. -/
structure Department where
  id : Nat
  company : Nat
  name : String
deriving DecidableEq, Repr

/-- Custom `User` model: nullable `company` and `department`, a role, and a
nullable self-referential `manager` column (`on_delete=SET_NULL`). -/
structure UserRec where
  id : Nat
  username : String
  company : Option Nat
  department : Option Nat
  role : Role
  manager : Option Nat
deriving DecidableEq, Repr

/-- `rule_type` choices of `ApprovalRule` (`RULE_TYPE_CHOICES`). -/
inductive RuleType where
  | PERCENTAGE
  | SPECIFIC
  | HYBRID
deriving DecidableEq, Repr

/-- `ApprovalRule` model: both `minimum_percentage` and `specific_approver`
are declared `null=True, blank=True` for every `rule_type`;
`specific_approver` has `on_delete=SET_NULL`. -/
structure ApprovalRule where
  id : Nat
  company : Nat
  name : String
  rule_type : RuleType
  minimum_percentage : Option Nat
  specific_approver : Option Nat
  is_active : Bool
deriving DecidableEq, Repr

/-- `ApprovalFlow` model: company scope, optional department scope, an
optional `[min_amount, max_amount]` window and an optional `rule`
(`on_delete=SET_NULL`). -/
structure ApprovalFlow where
  id : Nat
  company : Nat
  name : String
  department : Option Nat
  min_amount : Option Nat
  max_amount : Option Nat
  rule : Option Nat
deriving DecidableEq, Repr

/-- `FlowStep` model: `flow` and `approver` are `on_delete=CASCADE`;
`order`, `is_manager_step` and `is_high_priority` as in the source. -/
structure FlowStep where
  id : Nat
  flow : Nat
  approver : Nat
  order : Nat
  is_manager_step : Bool
  is_high_priority : Bool
deriving DecidableEq, Repr

/-- Status choices of `Expense` (`STATUS_CHOICES`), default `DRAFT`. -/
inductive ExpenseStatus where
  | DRAFT
  | PENDING
  | APPROVED
  | REJECTED
deriving DecidableEq, Repr

/-- `Expense` model. `status` defaults to `DRAFT` exactly as the column
declaration `status = CharField(..., default="DRAFT")`; `receipt`,
`approval_rule` and `flow` are nullable. `employee` is `on_delete=CASCADE`. -/
structure Expense where
  id : Nat
  employee : Nat
  description : String
  category : String
  amount : Nat
  currency_code : String
  currency_symbol : String
  converted_amount : Nat
  converted_currency_code : String
  converted_currency_symbol : String
  expense_date : Nat
  receipt : Option String := none
  status : ExpenseStatus := ExpenseStatus.DRAFT
  approval_rule : Option Nat := none
  flow : Option Nat := none
deriving DecidableEq, Repr

/-- Status choices of `ExpenseApproval` (`STATUS_CHOICES`), default
`PENDING`. -/
inductive ApprovalStatus where
  | PENDING
  | APPROVED
  | REJECTED
deriving DecidableEq, Repr

/-- `ExpenseApproval` model: `expense` and `approver` are
`on_delete=CASCADE`; `flow_step` is nullable with `on_delete=SET_NULL`;
`acted_at` is null until decided. -/
structure ExpenseApproval where
  id : Nat
  expense : Nat
  approver : Nat
  flow_step : Option Nat
  status : ApprovalStatus
  comments : String
  acted_at : Option Nat
deriving DecidableEq, Repr

/-- The persisted rows of the schema, as one record. -/
structure DB where
  companies : List Company
  departments : List Department
  users : List UserRec
  rules : List ApprovalRule
  flows : List ApprovalFlow
  flowSteps : List FlowStep
  expenses : List Expense
  approvals : List ExpenseApproval
deriving DecidableEq, Repr

/-- Deleting a `User` row, following the `on_delete` declarations of the
schema: other users referencing it as `manager` are set to null
(`SET_NULL`); `ApprovalRule.specific_approver` is set to null (`SET_NULL`);
`FlowStep` rows whose `approver` is the user are deleted (`CASCADE`);
`Expense` rows of the user are deleted (`CASCADE`), and `ExpenseApproval`
rows are deleted when their `approver` is the user or their expense is
itself deleted (`CASCADE`). -/
def deleteUser (uid : Nat) (db : DB) : DB :=
  let deadExpenses := (db.expenses.filter (fun e => e.employee == uid)).map (fun e => e.id)
  { db with
    users := (db.users.filter (fun u => u.id != uid)).map
      (fun u => if u.manager == some uid then { u with manager := none } else u),
    rules := db.rules.map
      (fun r => if r.specific_approver == some uid then { r with specific_approver := none } else r),
    flowSteps := db.flowSteps.filter (fun s => s.approver != uid),
    expenses := db.expenses.filter (fun e => e.employee != uid),
    approvals := db.approvals.filter
      (fun a => a.approver != uid && !(deadExpenses.contains a.expense)) }

/-- Deleting a `FlowStep` row: `ExpenseApproval.flow_step` references are
set to null (`on_delete=SET_NULL`); the step row itself is removed. -/
def deleteFlowStep (sid : Nat) (db : DB) : DB :=
  { db with
    flowSteps := db.flowSteps.filter (fun s => s.id != sid),
    approvals := db.approvals.map
      (fun a => if a.flow_step == some sid then { a with flow_step := none } else a) }

/-- The claimed exclusive-field invariant on `ApprovalRule`:
`minimum_percentage` populated iff the type is PERCENTAGE or HYBRID, and
`specific_approver` populated iff the type is SPECIFIC or HYBRID. -/
def ruleFieldsExclusive (r : ApprovalRule) : Prop :=
  (r.minimum_percentage.isSome = true ↔
    (r.rule_type = RuleType.PERCENTAGE ∨ r.rule_type = RuleType.HYBRID)) ∧
  (r.specific_approver.isSome = true ↔
    (r.rule_type = RuleType.SPECIFIC ∨ r.rule_type = RuleType.HYBRID))

instance (r : ApprovalRule) : Decidable (ruleFieldsExclusive r) := by
  unfold ruleFieldsExclusive
  infer_instance

/-- The transient provisioning attributes read off the saved `User`
instance by the `create_company_for_admin` signal handler
(`_company_name`, `_country`, `_currency_code`, `_currency_symbol`);
`getattr(instance, ..., None)` yields `none` when absent. -/
structure SignupAttrs where
  company_name : Option String
  country : Option String
  currency_code : Option String
  currency_symbol : Option String
deriving DecidableEq, Repr

/-- Python truthiness of an optional string: absent (`None`) and the empty
string are falsy. -/
def truthy : Option String → Bool
  | none => false
  | some s => !(s == "")

/-- The `post_save` receiver `create_company_for_admin` of the source: on a
creating save of an ADMIN user with no company, if all four provisioning
attributes are truthy, create a `Company` from them (with a fresh id) and
assign it to the user; otherwise do nothing. Returns the company created
(if any) and the resulting user row. -/
def create_company_for_admin (created : Bool) (u : UserRec) (attrs : SignupAttrs)
    (freshId : Nat) : Option Company × UserRec :=
  if created && (u.role == Role.ADMIN) && (u.company == none) then
    match attrs.company_name, attrs.country, attrs.currency_code, attrs.currency_symbol with
    | some cn, some co, some cc, some cs =>
      if !(cn == "") && !(co == "") && !(cc == "") && !(cs == "") then
        (some (Company.mk freshId cn co cc cs), { u with company := some freshId })
      else (none, u)
    | _, _, _, _ => (none, u)
  else (none, u)

/-! ### The approval engine

The Flow Resolver, Rule Evaluator and Approval State Machine have no
implementation under `src/` (the source holds only the schema and the
admin registration); each definition below is modelled from the
specification, as its doc comment records. -/

/-- Modelled from the spec: the error taxonomy of §7, absent from the
source tree. -/
inductive EngineError where
  | NoMatchingFlow
  | AmbiguousFlow
  | NoManagerAssigned
  | EmptyFlow
  | InvalidState
  | UnknownApproval
  | FlowExhausted
deriving DecidableEq, Repr

/-- Modelled from the spec: the Rule Evaluator's verdict (§4.2), absent
from the source tree. -/
inductive Verdict where
  | Pending
  | Approved
  | Rejected
deriving DecidableEq, Repr

/-- Modelled from the spec: one recorded (APPROVED or REJECTED) decision of
the history fed to the Rule Evaluator, carrying the deciding approver and
whether its flow step is high-priority. -/
structure Decision where
  approver : Nat
  approved : Bool
  is_high_priority : Bool
deriving DecidableEq, Repr

/-- Whether some recorded decision is an APPROVED decision on a
high-priority flow step. -/
def highPriorityApproved (ds : List Decision) : Bool :=
  ds.any (fun d => d.approved && d.is_high_priority)

/-- Count of APPROVED decisions in the history. -/
def approvedCount (ds : List Decision) : Nat :=
  (ds.filter (fun d => d.approved)).length

/-- Modelled from the spec: the PERCENTAGE sub-rule of §4.2, absent from
the source tree. Approved once `approved_count / total * 100 >=
minimum_percentage` (stated by cross-multiplication, exact rational
comparison); Rejected once even approving every remaining step could not
reach the threshold; otherwise Pending. `total` is the total number of
steps of the flow. -/
def percentageVerdict (minPct : Nat) (ds : List Decision) (total : Nat) : Verdict :=
  if approvedCount ds * 100 ≥ minPct * total then Verdict.Approved
  else if (approvedCount ds + (total - ds.length)) * 100 < minPct * total then Verdict.Rejected
  else Verdict.Pending

/-- Modelled from the spec: the SPECIFIC sub-rule of §4.2, absent from the
source tree. Approved once the designated approver appears with APPROVED;
Rejected once the designated approver appears with REJECTED; otherwise
Pending. -/
def specificVerdict (approverId : Option Nat) (ds : List Decision) : Verdict :=
  if ds.any (fun d => (some d.approver == approverId) && d.approved) then Verdict.Approved
  else if ds.any (fun d => (some d.approver == approverId) && !d.approved) then Verdict.Rejected
  else Verdict.Pending

/-- Modelled from the spec: the no-rule fallback of §4.2, absent from the
source tree — unanimous consent: Rejected once any decision is REJECTED;
Approved once all `total` steps are decided APPROVED; otherwise Pending. -/
def defaultVerdict (ds : List Decision) (total : Nat) : Verdict :=
  if ds.any (fun d => !d.approved) then Verdict.Rejected
  else if ds.length ≥ total then Verdict.Approved
  else Verdict.Pending

/-- Modelled from the spec: the HYBRID combination of §4.2, absent from the
source tree — Approved if either sub-rule approves (OR), Rejected only if
both sub-rules reject (AND), otherwise Pending. -/
def hybridVerdict (s p : Verdict) : Verdict :=
  if s = Verdict.Approved ∨ p = Verdict.Approved then Verdict.Approved
  else if s = Verdict.Rejected ∧ p = Verdict.Rejected then Verdict.Rejected
  else Verdict.Pending

/-- Modelled from the spec: the Rule Evaluator `evaluate(rule,
decisions_so_far, total_steps)` of §4.2, absent from the source tree. A
high-priority APPROVED decision short-circuits to Approved for every rule
type; otherwise the rule's own condition (or the unanimous fallback when
no rule is attached) decides. -/
def evaluate (rule : Option ApprovalRule) (ds : List Decision) (total : Nat) : Verdict :=
  if highPriorityApproved ds then Verdict.Approved
  else
    match rule with
    | none => defaultVerdict ds total
    | some r =>
      match r.rule_type with
      | RuleType.PERCENTAGE => percentageVerdict (r.minimum_percentage.getD 0) ds total
      | RuleType.SPECIFIC => specificVerdict r.specific_approver ds
      | RuleType.HYBRID =>
          hybridVerdict (specificVerdict r.specific_approver ds)
            (percentageVerdict (r.minimum_percentage.getD 0) ds total)

/-- Modelled from the spec: a materialized step of §4.1 — the step's order,
the concrete approver after manager substitution, and the high-priority
flag. -/
structure MStep where
  order : Nat
  approver : Nat
  is_high_priority : Bool
deriving DecidableEq, Repr

/-- Insert a step into a list sorted by ascending `order`. -/
def insertStep (s : FlowStep) : List FlowStep → List FlowStep
  | [] => [s]
  | t :: ts => if s.order ≤ t.order then s :: t :: ts else t :: insertStep s ts

/-- Sort flow steps by ascending `order` (insertion sort). -/
def sortSteps : List FlowStep → List FlowStep
  | [] => []
  | s :: ss => insertStep s (sortSteps ss)

/-- The catalog of configuration rows consulted by the engine. -/
structure Catalog where
  rules : List ApprovalRule
  flows : List ApprovalFlow
  flowSteps : List FlowStep
deriving DecidableEq, Repr

/-- Whether a flow's scope and amount window admit this employee and
amount: company matches, department is null or equals the employee's, and
each non-null amount bound contains the amount. -/
def flowMatches (f : ApprovalFlow) (emp : UserRec) (amount : Nat) : Bool :=
  (emp.company == some f.company)
  && (f.department == none || f.department == emp.department)
  && (match f.min_amount with | none => true | some m => m ≤ amount)
  && (match f.max_amount with | none => true | some m => amount ≤ m)

/-- Width of a flow's amount window; `none` stands for an unbounded
(infinite) window. -/
def flowWidth (f : ApprovalFlow) : Option Nat :=
  match f.min_amount, f.max_amount with
  | some a, some b => some (b - a)
  | _, _ => none

/-- Order on window widths with `none` as infinity. -/
def widthLE : Option Nat → Option Nat → Bool
  | some a, some b => a ≤ b
  | some _, none => true
  | none, some _ => false
  | none, none => true

/-- Modelled from the spec: the Flow Resolver `resolve` of §4.1, absent
from the source tree. Filter by scope and amount window; prefer
department-scoped flows over company-wide ones; among the remainder prefer
the narrowest window; a residual tie is `AmbiguousFlow`, an empty filter is
`NoMatchingFlow`. -/
def resolve (c : Catalog) (emp : UserRec) (amount : Nat) : Except EngineError ApprovalFlow :=
  let candidates := c.flows.filter (fun f => flowMatches f emp amount)
  match candidates with
  | [] => Except.error EngineError.NoMatchingFlow
  | _ :: _ =>
    let deptMatches := candidates.filter (fun f => f.department.isSome)
    let pool := if deptMatches.isEmpty then candidates else deptMatches
    let minW := pool.foldr (fun f acc => if widthLE (flowWidth f) acc then flowWidth f else acc)
      (none : Option Nat)
    match pool.filter (fun f => flowWidth f == minW) with
    | [f] => Except.ok f
    | _ => Except.error EngineError.AmbiguousFlow

/-- Resolve one step's concrete approver: a manager step substitutes the
employee's manager (`NoManagerAssigned` when absent). -/
def resolveApprover (emp : UserRec) (s : FlowStep) : Except EngineError Nat :=
  if s.is_manager_step then
    match emp.manager with
    | none => Except.error EngineError.NoManagerAssigned
    | some m => Except.ok m
  else Except.ok s.approver

/-- Modelled from the spec: `materialize_steps(flow, expense)` of §4.1,
absent from the source tree. The flow's steps in ascending order with
manager substitution; `EmptyFlow` when the flow has no steps. -/
def materializeSteps (c : Catalog) (flow : ApprovalFlow) (emp : UserRec) :
    Except EngineError (List MStep) :=
  let steps := sortSteps (c.flowSteps.filter (fun s => s.flow == flow.id))
  match steps with
  | [] => Except.error EngineError.EmptyFlow
  | _ :: _ =>
    steps.mapM (fun s =>
      match resolveApprover emp s with
      | Except.error e => Except.error e
      | Except.ok a => Except.ok (MStep.mk s.order a s.is_high_priority))

/-- One runtime `ExpenseApproval` row of the tracked expense: its id, the
resolved approver, the originating step's order and high-priority flag,
and the row's mutable status/comments/acted_at columns. -/
structure Approval where
  id : Nat
  approver : Nat
  stepOrder : Nat
  is_high_priority : Bool
  status : ApprovalStatus
  comments : String
  acted_at : Option Nat
deriving DecidableEq, Repr

/-- The approval-relevant state of one expense: its status, the pinned
flow/rule, and its `ExpenseApproval` rows in creation order. -/
structure EngineState where
  status : ExpenseStatus
  pinnedFlow : Option Nat
  pinnedRule : Option Nat
  approvals : List Approval
deriving DecidableEq, Repr

/-- A fresh expense's approval state: `DRAFT` (the column default), no
pinned flow or rule, no approval rows. -/
def initialState : EngineState :=
  EngineState.mk ExpenseStatus.DRAFT none none []

/-- Number of PENDING approval rows of the expense. -/
def countPending (l : List Approval) : Nat :=
  (l.filter (fun a => a.status == ApprovalStatus.PENDING)).length

/-- A fresh PENDING approval row for a materialized step, with the next
sequential id. -/
def newPendingApproval (nextId : Nat) (m : MStep) : Approval :=
  Approval.mk nextId m.approver m.order m.is_high_priority ApprovalStatus.PENDING "" none

/-- Modelled from the spec: `submit(expense)` of §4.3, absent from the
source tree. Requires DRAFT; resolves and materializes the flow; pins
flow/rule; creates the first step's PENDING approval; status becomes
PENDING. Resolver failures propagate unchanged. -/
def submit (c : Catalog) (emp : UserRec) (amount : Nat) (st : EngineState) :
    Except EngineError EngineState :=
  if st.status == ExpenseStatus.DRAFT then
    match resolve c emp amount with
    | Except.error e => Except.error e
    | Except.ok flow =>
      match materializeSteps c flow emp with
      | Except.error e => Except.error e
      | Except.ok [] => Except.error EngineError.EmptyFlow
      | Except.ok (m :: _) =>
        Except.ok (EngineState.mk ExpenseStatus.PENDING (some flow.id) flow.rule
          (st.approvals ++ [newPendingApproval st.approvals.length m]))
  else Except.error EngineError.InvalidState

/-- Apply an outcome to the approval row with the given id: set its status,
comments and acted_at; leave every other row unchanged. -/
def applyOutcome (aid : Nat) (outcome : Bool) (comments : String) (now : Nat)
    (a : Approval) : Approval :=
  if a.id == aid then
    { a with
      status := if outcome then ApprovalStatus.APPROVED else ApprovalStatus.REJECTED,
      comments := comments,
      acted_at := some now }
  else a

/-- The decided (non-PENDING) rows of the expense as evaluator decisions,
in creation order. -/
def decisionsOf (l : List Approval) : List Decision :=
  l.filterMap (fun a =>
    match a.status with
    | ApprovalStatus.APPROVED => some (Decision.mk a.approver true a.is_high_priority)
    | ApprovalStatus.REJECTED => some (Decision.mk a.approver false a.is_high_priority)
    | ApprovalStatus.PENDING => none)

/-- The rows of the pinned flow in the catalog. -/
def pinnedFlowSteps (c : Catalog) (st : EngineState) : List FlowStep :=
  match st.pinnedFlow with
  | none => []
  | some fid => c.flowSteps.filter (fun s => s.flow == fid)

/-- The pinned rule looked up in the catalog; an inactive rule is excluded
(treated as no rule), per the `is_active` exclusion of §3. -/
def pinnedRule (c : Catalog) (st : EngineState) : Option ApprovalRule :=
  st.pinnedRule.bind (fun rid => c.rules.find? (fun r => r.id == rid && r.is_active))

/-- Modelled from the spec: `record_decision(expense, approval_id, outcome,
comments)` of §4.3, absent from the source tree. Requires the expense
PENDING and the targeted approval PENDING (`InvalidState` otherwise;
`UnknownApproval` when the id does not belong to the expense); records the
outcome, re-evaluates; on a final verdict sets the expense status; on
Pending activates the next step in order or fails `FlowExhausted`. On any
failure the returned error carries no state: all rows are as before. -/
def record_decision (c : Catalog) (emp : UserRec) (st : EngineState) (aid : Nat)
    (outcome : Bool) (comments : String) (now : Nat) : Except EngineError EngineState :=
  if st.status == ExpenseStatus.PENDING then
    match st.approvals.find? (fun a => a.id == aid) with
    | none => Except.error EngineError.UnknownApproval
    | some a =>
      if a.status == ApprovalStatus.PENDING then
        match evaluate (pinnedRule c st)
            (decisionsOf (st.approvals.map (applyOutcome aid outcome comments now)))
            (pinnedFlowSteps c st).length with
        | Verdict.Approved =>
          Except.ok { st with
            status := ExpenseStatus.APPROVED,
            approvals := st.approvals.map (applyOutcome aid outcome comments now) }
        | Verdict.Rejected =>
          Except.ok { st with
            status := ExpenseStatus.REJECTED,
            approvals := st.approvals.map (applyOutcome aid outcome comments now) }
        | Verdict.Pending =>
          match (sortSteps (pinnedFlowSteps c st)).find? (fun s =>
              ((st.approvals.map (applyOutcome aid outcome comments now)).map
                (fun b => b.stepOrder)).foldr Nat.max 0 < s.order) with
          | none => Except.error EngineError.FlowExhausted
          | some s =>
            match resolveApprover emp s with
            | Except.error e => Except.error e
            | Except.ok appr =>
              Except.ok { st with
                approvals := st.approvals.map (applyOutcome aid outcome comments now) ++
                  [Approval.mk (st.approvals.map (applyOutcome aid outcome comments now)).length
                    appr s.order s.is_high_priority ApprovalStatus.PENDING "" none] }
      else Except.error EngineError.InvalidState
  else Except.error EngineError.InvalidState

/-- Modelled from the spec: the transactional boundary of §6/§7 — the
caller persists the returned state only on success; on an error the
pre-call state is kept. -/
def submitTx (c : Catalog) (emp : UserRec) (amount : Nat) (st : EngineState) :
    EngineState × Option EngineError :=
  match submit c emp amount st with
  | Except.ok st' => (st', none)
  | Except.error e => (st, some e)

/-- Modelled from the spec: the transactional boundary of §6/§7 for
`record_decision` — on an error the pre-call state is kept. -/
def recordDecisionTx (c : Catalog) (emp : UserRec) (st : EngineState) (aid : Nat)
    (outcome : Bool) (comments : String) (now : Nat) : EngineState × Option EngineError :=
  match record_decision c emp st aid outcome comments now with
  | Except.ok st' => (st', none)
  | Except.error e => (st, some e)

/-- States of one expense reachable from the fresh DRAFT state through
successful `submit` and `record_decision` calls. -/
inductive Reachable (c : Catalog) (emp : UserRec) (amount : Nat) : EngineState → Prop where
  | init : Reachable c emp amount initialState
  | step_submit {st st' : EngineState} :
      Reachable c emp amount st → submit c emp amount st = Except.ok st' →
      Reachable c emp amount st'
  | step_decide {st st' : EngineState} {aid : Nat} {outcome : Bool}
      {comments : String} {now : Nat} :
      Reachable c emp amount st →
      record_decision c emp st aid outcome comments now = Except.ok st' →
      Reachable c emp amount st'

/-! ### Theorems -/

/-- C7: deleting a user sets the `manager` field of every user that
referenced it to null, without deleting those users or touching any of
their other fields, and removes the deleted user itself. -/
theorem manager_deletion_sets_null (db : DB) (u : UserRec) (mid : Nat)
    (hu : u ∈ db.users) (hne : u.id ≠ mid) (hmgr : u.manager = some mid) :
    ({ u with manager := none } ∈ (deleteUser mid db).users) ∧
    (∀ v ∈ (deleteUser mid db).users, v.id ≠ mid) := by
  constructor
  · have hfil : u ∈ db.users.filter (fun w => w.id != mid) := by
      rw [List.mem_filter]
      exact ⟨hu, by simpa using hne⟩
    have hmap := List.mem_map_of_mem
      (fun w => if w.manager == some mid then { w with manager := none } else w) hfil
    simpa [deleteUser, hmgr] using hmap
  · intro v hv
    simp only [deleteUser, List.mem_map, List.mem_filter] at hv
    obtain ⟨w, ⟨_, hwid⟩, hw⟩ := hv
    have : w.id ≠ mid := by simpa using hwid
    subst hw
    split <;> simpa using this

/-- C7 witness: a concrete two-user database where deleting the manager
nulls the report's `manager` link and removes only the manager row. -/
theorem manager_deletion_sets_null_witness :
    ({ (UserRec.mk 2 "bob" (some 1) none Role.EMPLOYEE (some 9)) with manager := none } ∈
      (deleteUser 9 (DB.mk [] []
        [UserRec.mk 9 "meg" (some 1) none Role.MANAGER none,
         UserRec.mk 2 "bob" (some 1) none Role.EMPLOYEE (some 9)] [] [] [] [] [])).users) ∧
    (∀ v ∈ (deleteUser 9 (DB.mk [] []
        [UserRec.mk 9 "meg" (some 1) none Role.MANAGER none,
         UserRec.mk 2 "bob" (some 1) none Role.EMPLOYEE (some 9)] [] [] [] [] [])).users,
      v.id ≠ 9) :=
  manager_deletion_sets_null _ _ _ (by simp) (by decide) rfl

/-- C8: deleting a flow step nulls the `flow_step` reference of every
approval row that pointed at it while preserving the row itself — its id,
status, comments and acted_at — and removes the step row. -/
theorem step_deletion_preserves_history (db : DB) (a : ExpenseApproval) (sid : Nat)
    (ha : a ∈ db.approvals) (href : a.flow_step = some sid) :
    ({ a with flow_step := none } ∈ (deleteFlowStep sid db).approvals) ∧
    (∀ s ∈ (deleteFlowStep sid db).flowSteps, s.id ≠ sid) := by
  constructor
  · have hmap := List.mem_map_of_mem
      (fun b => if b.flow_step == some sid then { b with flow_step := none } else b) ha
    simpa [deleteFlowStep, href] using hmap
  · intro s hs
    simp only [deleteFlowStep, List.mem_filter] at hs
    simpa using hs.2

/-- C8 witness: a concrete decided approval row survives deletion of its
step with status, comments and acted_at intact and `flow_step` nulled. -/
theorem step_deletion_preserves_history_witness :
    ({ (ExpenseApproval.mk 4 3 9 (some 21) ApprovalStatus.APPROVED "fine" (some 50)) with
        flow_step := none } ∈
      (deleteFlowStep 21 (DB.mk [] [] [] [] [] [FlowStep.mk 21 5 9 1 false false] []
        [ExpenseApproval.mk 4 3 9 (some 21) ApprovalStatus.APPROVED "fine" (some 50)])).approvals) ∧
    (∀ s ∈ (deleteFlowStep 21 (DB.mk [] [] [] [] [] [FlowStep.mk 21 5 9 1 false false] []
        [ExpenseApproval.mk 4 3 9 (some 21) ApprovalStatus.APPROVED "fine" (some 50)])).flowSteps,
      s.id ≠ 21) :=
  step_deletion_preserves_history _ _ _ (by simp) rfl

/-- C10: deleting a user cascades to every flow step whose `approver` is
that user — the step rows are removed outright (whatever their
`is_manager_step` flag), so flows silently lose steps. -/
theorem approver_deletion_cascades_steps (db : DB) (uid : Nat) :
    (∀ s ∈ db.flowSteps, s.approver = uid → s ∉ (deleteUser uid db).flowSteps) ∧
    (∀ s ∈ (deleteUser uid db).flowSteps, s.approver ≠ uid) := by
  constructor
  · intro s _ happrover hmem
    simp only [deleteUser, List.mem_filter] at hmem
    rw [happrover] at hmem
    simpa using hmem.2
  · intro s hs
    simp only [deleteUser, List.mem_filter] at hs
    simpa using hs.2

/-- C10 witness: in a concrete catalog both a manager step and a fixed
step bound to the deleted approver disappear. -/
theorem approver_deletion_cascades_steps_witness :
    ((FlowStep.mk 21 5 9 1 false false) ∉
      (deleteUser 9 (DB.mk [] [] [] [] []
        [FlowStep.mk 21 5 9 1 false false, FlowStep.mk 22 5 9 2 true true] [] [])).flowSteps) ∧
    ((FlowStep.mk 22 5 9 2 true true) ∉
      (deleteUser 9 (DB.mk [] [] [] [] []
        [FlowStep.mk 21 5 9 1 false false, FlowStep.mk 22 5 9 2 true true] [] [])).flowSteps) :=
  ⟨(approver_deletion_cascades_steps (DB.mk [] [] [] [] []
        [FlowStep.mk 21 5 9 1 false false, FlowStep.mk 22 5 9 2 true true] [] []) 9).1
      _ (by simp) rfl,
   (approver_deletion_cascades_steps (DB.mk [] [] [] [] []
        [FlowStep.mk 21 5 9 1 false false, FlowStep.mk 22 5 9 2 true true] [] []) 9).1
      _ (by simp) rfl⟩

/-- A concrete database for the C6 counterexample: one user (id 7) and one
active SPECIFIC rule designating that user, initially satisfying the
claimed exclusive-field invariant. -/
def dbSpecificRule : DB :=
  DB.mk [] [] [UserRec.mk 7 "cfo" (some 1) none Role.MANAGER none]
    [ApprovalRule.mk 3 1 "cfo-rule" RuleType.SPECIFIC none (some 7) true] [] [] [] []

/-- C6 counterexample: every rule of the concrete database satisfies the
claimed exclusive-field invariant, yet deleting user 7 (the designated
specific approver, `on_delete=SET_NULL`) leaves a SPECIFIC rule whose
`specific_approver` is null — an operation of the schema leaves a rule
violating the invariant, refuting "no operation can construct or leave a
rule violating this". -/

theorem rule_fields_invariant_not_enforced :
    (∀ r ∈ dbSpecificRule.rules, ruleFieldsExclusive r) ∧
    (∃ r ∈ (deleteUser 7 dbSpecificRule).rules, ¬ ruleFieldsExclusive r) := by
  constructor
  · intro r hr
    simp only [dbSpecificRule] at hr
    simp only [List.mem_singleton] at hr
    subst hr
    decide
  · refine ⟨ApprovalRule.mk 3 1 "cfo-rule" RuleType.SPECIFIC none none true, ?_, ?_⟩
    · simp [deleteUser, dbSpecificRule]
    · decide

/-- C6 amended: the schema itself does not enforce the exclusive-field
invariant — deleting the user designated as `specific_approver` nulls that
field on the rule (SET_NULL) while preserving the rule's type, so a
SPECIFIC or HYBRID rule is left without its required field; both columns
are independently nullable for every rule type. -/
theorem specific_approver_deletion_nulls_rule (db : DB) (uid : Nat) (r : ApprovalRule)
    (hr : r ∈ db.rules) (href : r.specific_approver = some uid) :
    ({ r with specific_approver := none } ∈ (deleteUser uid db).rules) ∧
    ({ r with specific_approver := none }).rule_type = r.rule_type := by
  refine ⟨?_, rfl⟩
  have hmap := List.mem_map_of_mem
    (fun q => if q.specific_approver == some uid then { q with specific_approver := none } else q)
    hr
  simpa [deleteUser, href] using hmap

/-- C6 amended witness: the concrete SPECIFIC rule of `dbSpecificRule`
loses its approver on deletion of user 7 while staying SPECIFIC. -/
theorem specific_approver_deletion_nulls_rule_witness :
    ({ (ApprovalRule.mk 3 1 "cfo-rule" RuleType.SPECIFIC none (some 7) true) with
        specific_approver := none } ∈ (deleteUser 7 dbSpecificRule).rules) ∧
    ({ (ApprovalRule.mk 3 1 "cfo-rule" RuleType.SPECIFIC none (some 7) true) with
        specific_approver := none }).rule_type =
      (ApprovalRule.mk 3 1 "cfo-rule" RuleType.SPECIFIC none (some 7) true).rule_type :=
  specific_approver_deletion_nulls_rule dbSpecificRule 7 _ (by simp [dbSpecificRule]) rfl

/-- C5: the post-save hook creates and assigns a company exactly when the
save is a creation, the user is an ADMIN with no company, and all four
provisioning attributes are present and non-empty; the created company
carries those attribute values; in every other case nothing is created and
the user is unchanged. -/
theorem create_company_for_admin_spec (created : Bool) (u : UserRec) (attrs : SignupAttrs)
    (fid : Nat) :
    ((create_company_for_admin created u attrs fid).1.isSome = true ↔
      (created = true ∧ u.role = Role.ADMIN ∧ u.company = none ∧
       truthy attrs.company_name = true ∧ truthy attrs.country = true ∧
       truthy attrs.currency_code = true ∧ truthy attrs.currency_symbol = true)) ∧
    (∀ co, (create_company_for_admin created u attrs fid).1 = some co →
      co = Company.mk fid (attrs.company_name.getD "") (attrs.country.getD "")
            (attrs.currency_code.getD "") (attrs.currency_symbol.getD "") ∧
      (create_company_for_admin created u attrs fid).2 = { u with company := some fid }) ∧
    ((create_company_for_admin created u attrs fid).1 = none →
      (create_company_for_admin created u attrs fid).2 = u) := by
  obtain ⟨cn, co, cc, cs⟩ := attrs
  obtain ⟨uid, un, ucomp, udept, urole, umgr⟩ := u
  cases created <;> cases urole <;> cases ucomp <;>
    cases cn <;> cases co <;> cases cc <;> cases cs <;>
    simp only [create_company_for_admin, truthy] <;>
    split_ifs <;> simp_all

/-- C5 witness: a creating save of an ADMIN user with no company and all
four attributes present and non-empty provisions the company and assigns
it. -/
theorem create_company_for_admin_spec_witness :
    (create_company_for_admin true (UserRec.mk 1 "ada" none none Role.ADMIN none)
      (SignupAttrs.mk (some "Acme") (some "IN") (some "INR") (some "Rs")) 42).1 =
      some (Company.mk 42 "Acme" "IN" "INR" "Rs") ∧
    (create_company_for_admin true (UserRec.mk 1 "ada" none none Role.ADMIN none)
      (SignupAttrs.mk (some "Acme") (some "IN") (some "INR") (some "Rs")) 42).2 =
      { (UserRec.mk 1 "ada" none none Role.ADMIN none) with company := some 42 } := by
  have h := (create_company_for_admin_spec true (UserRec.mk 1 "ada" none none Role.ADMIN none)
      (SignupAttrs.mk (some "Acme") (some "IN") (some "INR") (some "Rs")) 42).2.1
      (Company.mk 42 "Acme" "IN" "INR" "Rs") (by decide)
  exact ⟨by decide, h.2⟩

/-- C3: an APPROVED decision on a high-priority step forces the verdict
Approved for every rule (PERCENTAGE, SPECIFIC, HYBRID or none), whatever
the rule's own condition says. -/
theorem high_priority_override (rule : Option ApprovalRule) (ds : List Decision)
    (total : Nat) (d : Decision) (hd : d ∈ ds) (ha : d.approved = true)
    (hp : d.is_high_priority = true) :
    evaluate rule ds total = Verdict.Approved := by
  have h : highPriorityApproved ds = true := by
    simp only [highPriorityApproved, List.any_eq_true]
    exact ⟨d, hd, by simp [ha, hp]⟩
  simp [evaluate, h]

/-- The PERCENTAGE rule of the 5-step scenario: `minimum_percentage = 60`. -/
def rule60 : ApprovalRule :=
  ApprovalRule.mk 1 1 "sixty-percent" RuleType.PERCENTAGE (some 60) none true

/-- C3 witness: one high-priority approval yields Approved under `rule60`
with a 5-step flow even though 1/5 is far below the 60% threshold. -/
theorem high_priority_override_witness :
    evaluate (some rule60) [Decision.mk 7 true true] 5 = Verdict.Approved :=
  high_priority_override (some rule60) [Decision.mk 7 true true] 5
    (Decision.mk 7 true true) (by simp) rfl rfl

/-- C1 counterexample: under the 60% rule with 5 total steps, a single
APPROVED decision on a high-priority step already yields Approved although
fewer than 3 decisions are APPROVED — the claim's "never Approved while
fewer than 3 decisions are APPROVED" fails once a high-priority step is
involved. -/
theorem percentage_claim_counterexample :
    evaluate (some rule60) [Decision.mk 7 true true] 5 = Verdict.Approved ∧
    approvedCount [Decision.mk 7 true true] < 3 := by
  constructor
  · decide
  · decide

/-- C1 amended: absent any APPROVED decision on a high-priority step, the
verdict under `rule60` with 5 total steps is Approved exactly when at
least 3 decisions are APPROVED; and in general a PERCENTAGE rule yields
Approved as soon as `approved_count * 100 ≥ minimum_percentage * total`
(where `total` counts all steps of the flow). -/
theorem percentage_rule_threshold :
    (∀ ds : List Decision, (∀ d ∈ ds, d.approved = true → d.is_high_priority = false) →
      (evaluate (some rule60) ds 5 = Verdict.Approved ↔ 3 ≤ approvedCount ds)) ∧
    (∀ (r : ApprovalRule) (ds : List Decision) (total m : Nat),
      r.rule_type = RuleType.PERCENTAGE → r.minimum_percentage = some m →
      m * total ≤ approvedCount ds * 100 →
      evaluate (some r) ds total = Verdict.Approved) := by
  constructor
  · intro ds hds
    have hhp : highPriorityApproved ds = false := by
      simp only [highPriorityApproved, List.any_eq_false]
      intro d hd
      by_cases ha : d.approved = true
      · simp [ha, hds d hd ha]
      · simp [Bool.eq_false_iff.mpr ha]
    by_cases hc : 60 * 5 ≤ approvedCount ds * 100
    · simp only [evaluate, hhp, Bool.false_eq_true, if_false, rule60, percentageVerdict,
        Option.getD_some, hc, if_true, ge_iff_le, if_pos hc]
      constructor
      · intro _; omega
      · intro _; trivial
    · simp only [evaluate, hhp, Bool.false_eq_true, if_false, rule60, percentageVerdict,
        Option.getD_some, ge_iff_le, if_neg hc]
      constructor
      · intro h
        split at h <;> simp_all
      · intro h; omega
  · intro r ds total m hrt hm hle
    cases hhp : highPriorityApproved ds with
    | true => simp [evaluate, hhp]
    | false =>
      simp [evaluate, hhp, hrt, percentageVerdict, hm, hle]

/-- C1 amended witness: with three plain approvals out of five steps the
verdict is Approved, and the iff instantiates at that history. -/
theorem percentage_rule_threshold_witness :
    evaluate (some rule60)
      [Decision.mk 1 true false, Decision.mk 2 true false, Decision.mk 3 true false] 5 =
      Verdict.Approved :=
  (percentage_rule_threshold.1
      [Decision.mk 1 true false, Decision.mk 2 true false, Decision.mk 3 true false]
      (by decide)).mpr (by decide)

/-- A concrete employee for demonstration states: company 1, a manager
(user 11). -/
def demoEmployee : UserRec := UserRec.mk 10 "alice" (some 1) none Role.EMPLOYEE (some 11)

/-- A concrete two-step company-wide flow with the `rule60` rule. -/
def demoFlow : ApprovalFlow := ApprovalFlow.mk 5 1 "travel" none (some 0) (some 10000) (some 1)

/-- The concrete catalog of the demonstration: `rule60`, `demoFlow`, and
two fixed-approver steps. -/
def demoCatalog : Catalog :=
  Catalog.mk [rule60] [demoFlow]
    [FlowStep.mk 21 5 11 1 false false, FlowStep.mk 22 5 12 2 false false]

/-- The state after submitting a draft expense of amount 500 against
`demoCatalog`: PENDING, flow/rule pinned, one PENDING approval for step 1. -/
def demoSubmitted : EngineState :=
  EngineState.mk ExpenseStatus.PENDING (some 5) (some 1)
    [Approval.mk 0 11 1 false ApprovalStatus.PENDING "" none]

/-- C4: whenever `submit` or `record_decision` fails with any error of the
taxonomy, the transactional boundary keeps the expense state — status,
pinned flow/rule and all approval rows — exactly as before the call. -/
theorem failure_preserves_state (c : Catalog) (emp : UserRec) (amount : Nat)
    (st : EngineState) (aid : Nat) (outcome : Bool) (comments : String) (now : Nat) :
    (∀ e : EngineError, (submitTx c emp amount st).2 = some e →
      (submitTx c emp amount st).1 = st) ∧
    (∀ e : EngineError, (recordDecisionTx c emp st aid outcome comments now).2 = some e →
      (recordDecisionTx c emp st aid outcome comments now).1 = st) := by
  constructor
  · intro e he
    unfold submitTx at he ⊢
    cases h : submit c emp amount st <;> simp [h] at he ⊢
  · intro e he
    unfold recordDecisionTx at he ⊢
    cases h : record_decision c emp st aid outcome comments now <;> simp [h] at he ⊢

/-- C4 witness: submitting an already-PENDING expense fails with
`InvalidState` and the state is exactly the pre-call state. -/
theorem failure_preserves_state_witness :
    (submitTx demoCatalog demoEmployee 500 demoSubmitted).2 =
      some EngineError.InvalidState ∧
    (submitTx demoCatalog demoEmployee 500 demoSubmitted).1 = demoSubmitted :=
  ⟨rfl, (failure_preserves_state demoCatalog demoEmployee 500 demoSubmitted 0 true "" 0).1
    EngineError.InvalidState rfl⟩

/-- C9: a fresh expense built without an explicit status is DRAFT (the
column default); `submit` succeeds only from DRAFT and yields PENDING;
`record_decision` succeeds only from PENDING; hence APPROVED and REJECTED
are terminal for the engine. -/
theorem expense_status_lifecycle :
    (∀ (eid emp : Nat) (desc cat ccode csym cccode ccsym : String) (amt camt edate : Nat),
      ({ id := eid, employee := emp, description := desc, category := cat, amount := amt,
         currency_code := ccode, currency_symbol := csym, converted_amount := camt,
         converted_currency_code := cccode, converted_currency_symbol := ccsym,
         expense_date := edate } : Expense).status = ExpenseStatus.DRAFT) ∧
    (∀ (c : Catalog) (emp : UserRec) (amount : Nat) (st st' : EngineState),
      submit c emp amount st = Except.ok st' →
      st.status = ExpenseStatus.DRAFT ∧ st'.status = ExpenseStatus.PENDING) ∧
    (∀ (c : Catalog) (emp : UserRec) (st st' : EngineState) (aid : Nat) (outcome : Bool)
      (comments : String) (now : Nat),
      record_decision c emp st aid outcome comments now = Except.ok st' →
      st.status = ExpenseStatus.PENDING) ∧
    (∀ (c : Catalog) (emp : UserRec) (amount : Nat) (st : EngineState) (aid : Nat)
      (outcome : Bool) (comments : String) (now : Nat),
      (st.status = ExpenseStatus.APPROVED ∨ st.status = ExpenseStatus.REJECTED) →
      (∀ st', submit c emp amount st ≠ Except.ok st') ∧
      (∀ st', record_decision c emp st aid outcome comments now ≠ Except.ok st')) := by
  refine ⟨fun _ _ _ _ _ _ _ _ _ _ _ => rfl, ?_, ?_, ?_⟩
  · intro c emp amount st st' h
    unfold submit at h
    split at h
    · next hdraft =>
      refine ⟨by simpa using hdraft, ?_⟩
      split at h
      · exact absurd h (by simp)
      · split at h
        · exact absurd h (by simp)
        · exact absurd h (by simp)
        · injection h with h'
          subst h'
          rfl
    · exact absurd h (by simp)
  · intro c emp st st' aid outcome comments now h
    unfold record_decision at h
    split at h
    · next hpend => simpa using hpend
    · exact absurd h (by simp)
  · intro c emp amount st aid outcome comments now hterm
    constructor
    · intro st' h
      unfold submit at h
      split at h
      · next hdraft =>
        rcases hterm with ht | ht <;> rw [ht] at hdraft <;> simp at hdraft
      · exact absurd h (by simp)
    · intro st' h
      unfold record_decision at h
      split at h
      · next hpend =>
        rcases hterm with ht | ht <;> rw [ht] at hpend <;> simp at hpend
      · exact absurd h (by simp)

/-- C9 witness: a concrete expense row takes the DRAFT default, the
concrete submission of the demo catalog moves DRAFT to PENDING, and no
operation succeeds from the APPROVED state. -/
theorem expense_status_lifecycle_witness :
    ({ id := 1, employee := 10, description := "taxi", category := "travel", amount := 500,
       currency_code := "INR", currency_symbol := "Rs", converted_amount := 500,
       converted_currency_code := "INR", converted_currency_symbol := "Rs",
       expense_date := 7 } : Expense).status = ExpenseStatus.DRAFT ∧
    (initialState.status = ExpenseStatus.DRAFT ∧
      demoSubmitted.status = ExpenseStatus.PENDING) ∧
    (∀ st', submit demoCatalog demoEmployee 500
      (EngineState.mk ExpenseStatus.APPROVED (some 5) (some 1) []) ≠ Except.ok st') :=
  ⟨expense_status_lifecycle.1 1 10 "taxi" "travel" "INR" "Rs" "INR" "Rs" 500 500 7,
   expense_status_lifecycle.2.1 demoCatalog demoEmployee 500 initialState demoSubmitted rfl,
   (expense_status_lifecycle.2.2.2 demoCatalog demoEmployee 500
      (EngineState.mk ExpenseStatus.APPROVED (some 5) (some 1) []) 0 true "" 0
      (Or.inl rfl)).1⟩

end ExpenseMgmt

namespace ExpenseMgmt

lemma two_mem_filter_length {p : Approval → Bool} {l : List Approval} {a x : Approval}
    (hlen : (l.filter p).length ≤ 1) (ha : a ∈ l.filter p) (hx : x ∈ l.filter p)
    (hne : a ≠ x) : False := by
  rcases hfl : l.filter p with _ | ⟨c, _ | ⟨d, tl⟩⟩
  · rw [hfl] at ha
    exact absurd ha (List.not_mem_nil a)
  · rw [hfl] at ha hx
    simp only [List.mem_singleton] at ha hx
    exact hne (ha.trans hx.symm)
  · rw [hfl] at hlen
    simp at hlen

lemma countPending_map_applyOutcome (l : List Approval) (aid : Nat) (o : Bool)
    (cm : String) (t : Nat) (a : Approval) (hmem : a ∈ l)
    (hpend : a.status = ApprovalStatus.PENDING) (hid : a.id = aid)
    (hcount : countPending l ≤ 1) :
    countPending (l.map (applyOutcome aid o cm t)) = 0 := by
  unfold countPending at hcount ⊢
  rw [List.length_eq_zero, List.filter_eq_nil_iff]
  intro b hb
  rw [List.mem_map] at hb
  obtain ⟨x, hxl, hxb⟩ := hb
  subst hxb
  unfold applyOutcome
  by_cases hxid : x.id = aid
  · simp only [hxid, beq_self_eq_true, if_true]
    cases o <;> simp
  · simp only [beq_iff_eq, hxid, if_false]
    intro hxpend
    have hxp : x.status = ApprovalStatus.PENDING := by simpa using hxpend
    have haf : a ∈ l.filter (fun y => y.status == ApprovalStatus.PENDING) := by
      rw [List.mem_filter]
      exact ⟨hmem, by simp [hpend]⟩
    have hxf : x ∈ l.filter (fun y => y.status == ApprovalStatus.PENDING) := by
      rw [List.mem_filter]
      exact ⟨hxl, by simp [hxp]⟩
    have hne : a ≠ x := fun h => hxid (h ▸ hid)
    exact two_mem_filter_length hcount haf hxf hne

lemma stepOrder_map_applyOutcome (l : List Approval) (aid : Nat) (o : Bool)
    (cm : String) (t : Nat) :
    (l.map (applyOutcome aid o cm t)).map (fun a => a.stepOrder) =
      l.map (fun a => a.stepOrder) := by
  induction l with
  | nil => rfl
  | cons hd tl ih =>
    simp only [List.map_cons, ih]
    congr 1
    unfold applyOutcome
    split <;> rfl

lemma le_foldr_max (l : List Nat) (x : Nat) (hx : x ∈ l) : x ≤ l.foldr Nat.max 0 := by
  induction l with
  | nil => exact absurd hx (List.not_mem_nil x)
  | cons hd tl ih =>
    rcases List.mem_cons.mp hx with h | h
    · subst h
      exact Nat.le_max_left _ _
    · exact Nat.le_trans (ih h) (Nat.le_max_right _ _)

/-- The single-open-step invariant together with the facts needed to keep
it inductive: a DRAFT expense has no approval rows, at most one row is
PENDING, and the activated step orders are strictly increasing. -/
def EngineInv (st : EngineState) : Prop :=
  (st.status = ExpenseStatus.DRAFT → st.approvals = []) ∧
  countPending st.approvals ≤ 1 ∧
  (st.approvals.map (fun a => a.stepOrder)).Pairwise (· < ·)

lemma reachable_engineInv {c : Catalog} {emp : UserRec} {amount : Nat} {st : EngineState}
    (h : Reachable c emp amount st) : EngineInv st := by
  induction h with
  | init =>
    refine ⟨fun _ => rfl, ?_, ?_⟩ <;> simp [initialState, countPending]
  | step_submit hre hok ih =>
    rename_i st st'
    unfold submit at hok
    split at hok
    · next hdraft =>
      have hD : st.status = ExpenseStatus.DRAFT := by simpa using hdraft
      have hnil : st.approvals = [] := ih.1 hD
      split at hok
      · exact absurd hok (by simp)
      · split at hok
        · exact absurd hok (by simp)
        · exact absurd hok (by simp)
        · injection hok with h'
          subst h'
          refine ⟨fun habs => by simp at habs, ?_, ?_⟩
          · simp [hnil, countPending, newPendingApproval]
          · simp [hnil, newPendingApproval]
    · exact absurd hok (by simp)
  | step_decide hre hok ih =>
    rename_i st st' aid outcome comments now
    unfold record_decision at hok
    split at hok
    · next hpendSt =>
      have hP : st.status = ExpenseStatus.PENDING := by simpa using hpendSt
      split at hok
      · exact absurd hok (by simp)
      · next a hfind =>
        have hmem : a ∈ st.approvals := List.mem_of_find?_eq_some hfind
        have hid : a.id = aid := by simpa using List.find?_some hfind
        split at hok
        · next hapend =>
          have hpend : a.status = ApprovalStatus.PENDING := by simpa using hapend
          have hzero := countPending_map_applyOutcome st.approvals aid outcome comments now
            a hmem hpend hid ih.2.1
          have horders := stepOrder_map_applyOutcome st.approvals aid outcome comments now
          split at hok
          · injection hok with h'
            subst h'
            refine ⟨fun habs => by simp at habs, by simp [hzero], ?_⟩
            simpa [horders] using ih.2.2
          · injection hok with h'
            subst h'
            refine ⟨fun habs => by simp at habs, by simp [hzero], ?_⟩
            simpa [horders] using ih.2.2
          · split at hok
            · exact absurd hok (by simp)
            · next s hnext =>
              split at hok
              · exact absurd hok (by simp)
              · next appr hres =>
                injection hok with h'
                subst h'
                have hgt : ((st.approvals.map (applyOutcome aid outcome comments now)).map
                    (fun b => b.stepOrder)).foldr Nat.max 0 < s.order := by
                  have := List.find?_some hnext
                  simpa using this
                rw [horders] at hgt
                refine ⟨fun habs => by rw [hP] at habs; simp at habs, ?_, ?_⟩
                · unfold countPending at hzero ⊢
                  rw [List.filter_append, List.length_append, hzero]
                  simp
                · rw [List.map_append, horders]
                  rw [List.pairwise_append]
                  refine ⟨ih.2.2, by simp, ?_⟩
                  intro x hx y hy
                  simp only [List.map_cons, List.map_nil, List.mem_singleton] at hy
                  subst hy
                  exact Nat.lt_of_le_of_lt (le_foldr_max _ x hx) hgt
        · exact absurd hok (by simp)
    · exact absurd hok (by simp)

/-- C2: in every state reachable through `submit` and `record_decision`,
at most one `ExpenseApproval` row of the expense is PENDING, and the step
orders of the rows (in creation order) are strictly increasing — steps are
activated strictly in ascending order and a new PENDING row appears only
once the previous one is decided. -/
theorem single_open_step_invariant (c : Catalog) (emp : UserRec) (amount : Nat)
    (st : EngineState) (h : Reachable c emp amount st) :
    countPending st.approvals ≤ 1 ∧
    (st.approvals.map (fun a => a.stepOrder)).Pairwise (· < ·) :=
  ⟨(reachable_engineInv h).2.1, (reachable_engineInv h).2.2⟩

/-- C2 witness: the concrete submitted state of the demo catalog is
reachable and satisfies the invariant. -/
theorem single_open_step_invariant_witness :
    countPending demoSubmitted.approvals ≤ 1 ∧
    (demoSubmitted.approvals.map (fun a => a.stepOrder)).Pairwise (· < ·) :=
  single_open_step_invariant demoCatalog demoEmployee 500 demoSubmitted
    (Reachable.step_submit Reachable.init rfl)

end ExpenseMgmt
